import Mathlib

/-!
# Verification of `BatchAudioNormalizer.py` (`AudioNormalizerWorker`)

Shallow embedding of the worker class `AudioNormalizerWorker` of
`src/BatchAudioNormalizer.py` and proofs about it.

Two parts are embedded:

* the batch loop of `AudioNormalizerWorker.run` (lines 38-126), as a pure
  function from the list of input files (each abstracted to its display
  name and the outcome of its per-file pipeline) and the observed
  cancellation point to the list of Qt signal emissions;
* the three normalization strategies of lines 53-93 (`peak`, `rms`,
  `loudness`), as functions on sample buffers.  Sample values are modelled
  as exact reals; the `loudness` strategy additionally needs the IEEE-754
  special values (`np.log10(0.0) = -inf`, `0.0 * inf = nan`), which are
  modelled by the carrier `FV` below.

The mp3 encoding branch (lines 104-115) gets a dedicated small-step model
of its effect on the set of `<base>_temp.wav` files in the output folder.
-/

set_option autoImplicit false

namespace BatchAudioNormalizer

/-! ## Event stream of `AudioNormalizerWorker.run`

The worker communicates through three Qt signals (lines 20-22):
`progress_updated = pyqtSignal(int)`, `file_processed = pyqtSignal(str)`
and `finished = pyqtSignal()`.  Note that `finished` carries *no*
argument.  An emission is one of: -/

inductive Event where
  | progress : Nat → Event
  | fileResult : String → Event
  | finished : Event
  deriving DecidableEq, Repr

/-- One input file, abstracted to what the loop body of `run` can observe:
its display name (`file_name = os.path.basename(file_path)`, line 45) and
the outcome of its decode→normalize→resample→encode pipeline.
`result = none` means the `try` block of lines 44-120 runs to completion;
`result = some msg` means some step raised an exception whose `str` is
`msg`, caught at line 122. -/
structure FileSpec where
  name : String
  result : Option String
  deriving DecidableEq, Repr

/-- Line 118: `progress = int((i + 1) / total_files * 100)`.  Python's
`int` truncates toward zero, which on this nonnegative value is the floor,
i.e. `Nat` division (exact real arithmetic; IEEE rounding of the
intermediate quotient is not modelled). -/
def progressOf (total i : Nat) : Nat :=
  (i + 1) * 100 / total

/-- The signal emissions of one iteration of the loop body for the file at
zero-based index `i`: on success, `progress_updated.emit(progress)` then
`file_processed.emit(file_name)` (lines 119-120); on an exception,
only `file_processed.emit(f"ERROR: {file_name} - {str(e)}")` (line 124). -/
def fileEvents (total i : Nat) (f : FileSpec) : List Event :=
  match f.result with
  | none => [Event.progress (progressOf total i), Event.fileResult f.name]
  | some msg => [Event.fileResult ("ERROR: " ++ f.name ++ " - " ++ msg)]

/-- The value of `self.is_running` read by the check at line 41 during
iteration `i`.  `stop` (line 129) only ever sets the flag to `False`, so
the reads are `true` up to some first `false`; `cancelAt = some c` models
"the flag reads `False` from iteration `c` on", `none` models a run that
is never cancelled. -/
def runningAt (cancelAt : Option Nat) (i : Nat) : Bool :=
  match cancelAt with
  | none => true
  | some c => i < c

/-- The `for i, file_path in enumerate(self.input_files)` loop of lines
40-124: at each iteration first the cancellation check
`if not self.is_running: break` (lines 41-42), then the per-file body. -/
def loopEvents (total : Nat) (cancelAt : Option Nat) : Nat → List FileSpec → List Event
  | _, [] => []
  | i, f :: rest =>
    if runningAt cancelAt i then
      fileEvents total i f ++ loopEvents total cancelAt (i + 1) rest
    else
      []

/-- The whole of `AudioNormalizerWorker.run` (lines 38-126):
`total_files = len(self.input_files)`, the loop, then the unconditional
`self.finished.emit()` of line 126. -/
def runEvents (files : List FileSpec) (cancelAt : Option Nat) : List Event :=
  loopEvents files.length cancelAt 0 files ++ [Event.finished]

/-- The labels carried by the `file_processed` emissions of a run, in
order. -/
def fileResultLabels (evs : List Event) : List String :=
  evs.filterMap fun e =>
    match e with
    | Event.fileResult s => some s
    | _ => none

/-- The `progress_updated` emissions of a run, in order. -/
def progressEvents (evs : List Event) : List Event :=
  evs.filter fun e =>
    match e with
    | Event.progress _ => true
    | _ => false

/-- The label `run` emits for a file on line 120 resp. line 124. -/
def labelOf (f : FileSpec) : String :=
  match f.result with
  | none => f.name
  | some msg => "ERROR: " ++ f.name ++ " - " ++ msg

/-! ## The mp3 branch and its temporary file (lines 104-115)

For `target_format == "mp3"` the per-file body writes
`temp_wav = os.path.join(self.output_folder, f"{base_name}_temp.wav")`
(lines 106-108), transcodes it with pydub (lines 111-112) and then runs
`os.remove(temp_wav)` (line 115).  Any exception in between is caught by
the `except` of line 122, which emits the error label and continues the
loop — it does not touch the file system.  We model the effect of one
file's mp3 step on the set of `*_temp.wav` files present in the output
folder. -/

/-- Where, if anywhere, the pipeline of one mp3-encoded file raises. -/
inductive Mp3Outcome where
  /-- an exception before `sf.write(temp_wav, ...)` of line 107 creates
  the temp file (e.g. `librosa.load` fails, or `sf.write` fails before
  creating the file). -/
  | preTempFail : String → Mp3Outcome
  /-- `AudioSegment.from_wav` (line 111) or `export` (line 112) raises
  after the temp file was created. -/
  | transcodeFail : String → Mp3Outcome
  /-- the whole body runs, reaching `os.remove(temp_wav)` on line 115. -/
  | ok : Mp3Outcome
  deriving DecidableEq, Repr

/-- One input file of an mp3-encoding run: its base name
(`base_name = os.path.splitext(file_name)[0]`, line 46) and where its
pipeline stops. -/
structure Mp3File where
  base : String
  outcome : Mp3Outcome
  deriving DecidableEq, Repr

/-- Line 106: the temp file written beside the destination. -/
def tempName (base : String) : String :=
  base ++ "_temp.wav"

/-- Creating a file: an existing file of the same name is overwritten, so
the directory contents (as a set, kept as a duplicate-free list) gain at
most one entry. -/
def fsCreate (n : String) (fs : List String) : List String :=
  if n ∈ fs then fs else fs ++ [n]

/-- Removing a file (`os.remove`): the named file is gone afterwards. -/
def fsRemove (n : String) (fs : List String) : List String :=
  fs.filter (fun m => m ≠ n)

/-- The effect of one file's mp3 step (lines 104-115 under the `try` of
line 44) on the set `fs` of temp files present in the output folder. -/
def mp3Step (fs : List String) (f : Mp3File) : List String :=
  match f.outcome with
  | Mp3Outcome.preTempFail _ => fs
  | Mp3Outcome.transcodeFail _ => fsCreate (tempName f.base) fs
  | Mp3Outcome.ok => fsRemove (tempName f.base) (fsCreate (tempName f.base) fs)

/-- The temp files still present in the output folder after a whole
mp3-encoding run over `files` (the folder starts with none). -/
def runTemps (files : List Mp3File) : List String :=
  files.foldl mp3Step []

/-- Whether a file's pipeline raised during the transcode step, i.e.
after the temp file existed and before `os.remove` could run. -/
def failedTranscode (f : Mp3File) : Bool :=
  match f.outcome with
  | Mp3Outcome.transcodeFail _ => true
  | _ => false

/-! ## Sample buffers and the three normalization strategies (lines 53-93)

`librosa.load` returns a one-dimensional float array for mono and a
`2 × frames` array (`audio[0]` = left, `audio[1]` = right) for stereo.
Sample values are modelled as exact reals, so the guarded `peak` and
`rms` strategies — whose arithmetic stays finite on every input — are
plain real computations; the unguarded `loudness` strategy is modelled
over the IEEE-754-style carrier `FV` further below, because on silent
input it hits `np.log10(0.0) = -inf` and `0.0 * inf = nan`. -/

/-- A decoded sample buffer: `audio.ndim == 1` (mono) or a 2-row array
(stereo). -/
inductive Buffer (α : Type) where
  | mono : List α → Buffer α
  | stereo : List α → List α → Buffer α
  deriving DecidableEq, Repr

/-- All sample values of the buffer, as `np.abs`/`np.max` see them. -/
def Buffer.samples {α : Type} : Buffer α → List α
  | Buffer.mono xs => xs
  | Buffer.stereo l r => l ++ r

/-- Elementwise array arithmetic (`audio * gain` and friends). -/
def Buffer.map {α β : Type} (f : α → β) : Buffer α → Buffer β
  | Buffer.mono xs => Buffer.mono (xs.map f)
  | Buffer.stereo l r => Buffer.stereo (l.map f) (r.map f)

/-- Lines 55-58: `max_amplitude = np.max(np.abs(audio))` (both branches
of the `ndim` test are identical).  `np.max` of a nonempty list of
absolute values; the `0` base of the fold is below every `|x|`, so on the
nonempty buffers the decoder produces this is exactly `np.max`. -/
noncomputable def maxAmplitude (b : Buffer ℝ) : ℝ :=
  (b.samples.map (fun x => |x|)).foldr max 0

/-- Line 60 (and line 65): `target_amplitude = 10 ** (self.target_level / 20.0)`. -/
noncomputable def targetAmplitude (L : ℝ) : ℝ :=
  (10 : ℝ) ^ (L / 20)

/-- Lines 53-61, the `peak` strategy:
`normalized_audio = audio * (target_amplitude / max_amplitude) if max_amplitude > 0 else audio`. -/
noncomputable def peakNormalize (L : ℝ) (b : Buffer ℝ) : Buffer ℝ :=
  if 0 < maxAmplitude b then
    b.map (fun x => x * (targetAmplitude L / maxAmplitude b))
  else
    b

/-- The mean square `np.mean(xs**2)` of a channel. -/
noncomputable def meanSq (xs : List ℝ) : ℝ :=
  (xs.map (fun x => x ^ 2)).sum / (xs.length : ℝ)

/-- Lines 69-70 / 76: `current_rms = np.sqrt(np.mean(channel**2))`. -/
noncomputable def rmsVal (xs : List ℝ) : ℝ :=
  Real.sqrt (meanSq xs)

/-- Lines 71-72 / 77: `gain = target_rms / current_rms if current_rms > 0 else 1.0`. -/
noncomputable def rmsGain (L : ℝ) (xs : List ℝ) : ℝ :=
  if 0 < rmsVal xs then targetAmplitude L / rmsVal xs else 1

/-- Lines 63-78, the `rms` strategy: per-channel RMS and per-channel gain
for stereo (`np.vstack((audio[0] * gain_left, audio[1] * gain_right))`),
a single RMS and gain for mono. -/
noncomputable def rmsNormalize (L : ℝ) : Buffer ℝ → Buffer ℝ
  | Buffer.mono xs => Buffer.mono (xs.map (fun x => x * rmsGain L xs))
  | Buffer.stereo l r =>
      Buffer.stereo (l.map (fun x => x * rmsGain L l)) (r.map (fun x => x * rmsGain L r))

/-! ### IEEE-754 special values for the `loudness` strategy

`FV` is a float value: a finite real, `±inf` or `nan`.  Only the
operations the `loudness` branch performs are defined, each following the
IEEE-754 rules numpy implements (`log10(0) = -inf`, `x - (-inf) = +inf`,
`10 ** inf = inf`, `0 * inf = nan`, every operation on `nan` gives
`nan`). -/

inductive FV where
  | fin : ℝ → FV
  | posInf : FV
  | negInf : FV
  | nan : FV

open Classical in
/-- `np.log10` on a (finite, here nonnegative) argument: `-inf` at `0`,
`nan` on negatives, otherwise finite. -/
noncomputable def flog10 (x : ℝ) : FV :=
  if x = 0 then FV.negInf else if x < 0 then FV.nan else FV.fin (Real.logb 10 x)

/-- Multiplication by a positive finite constant (used for the literal
`20`): keeps infinities and `nan`. -/
noncomputable def fvScale (c : ℝ) : FV → FV
  | FV.fin x => FV.fin (c * x)
  | FV.posInf => FV.posInf
  | FV.negInf => FV.negInf
  | FV.nan => FV.nan

/-- Division by a positive finite constant (the `/ 20`): keeps
infinities and `nan`. -/
noncomputable def fvDivC (c : ℝ) : FV → FV
  | FV.fin x => FV.fin (x / c)
  | FV.posInf => FV.posInf
  | FV.negInf => FV.negInf
  | FV.nan => FV.nan

/-- IEEE-754 subtraction. -/
noncomputable def fvSub : FV → FV → FV
  | FV.nan, _ => FV.nan
  | _, FV.nan => FV.nan
  | FV.fin a, FV.fin b => FV.fin (a - b)
  | FV.fin _, FV.posInf => FV.negInf
  | FV.fin _, FV.negInf => FV.posInf
  | FV.posInf, FV.fin _ => FV.posInf
  | FV.posInf, FV.posInf => FV.nan
  | FV.posInf, FV.negInf => FV.posInf
  | FV.negInf, FV.fin _ => FV.negInf
  | FV.negInf, FV.posInf => FV.negInf
  | FV.negInf, FV.negInf => FV.nan

open Classical in
/-- IEEE-754 multiplication; in particular `0 * ±inf = nan`. -/
noncomputable def fvMul : FV → FV → FV
  | FV.nan, _ => FV.nan
  | _, FV.nan => FV.nan
  | FV.fin a, FV.fin b => FV.fin (a * b)
  | FV.fin a, FV.posInf =>
      if a = 0 then FV.nan else if 0 < a then FV.posInf else FV.negInf
  | FV.fin a, FV.negInf =>
      if a = 0 then FV.nan else if 0 < a then FV.negInf else FV.posInf
  | FV.posInf, FV.fin b =>
      if b = 0 then FV.nan else if 0 < b then FV.posInf else FV.negInf
  | FV.negInf, FV.fin b =>
      if b = 0 then FV.nan else if 0 < b then FV.negInf else FV.posInf
  | FV.posInf, FV.posInf => FV.posInf
  | FV.posInf, FV.negInf => FV.negInf
  | FV.negInf, FV.posInf => FV.negInf
  | FV.negInf, FV.negInf => FV.posInf

/-- Exponentiation `10 ** x` for an IEEE exponent: `10 ** inf = inf`,
`10 ** -inf = 0`. -/
noncomputable def fvPow10 : FV → FV
  | FV.fin x => FV.fin ((10 : ℝ) ^ x)
  | FV.posInf => FV.posInf
  | FV.negInf => FV.fin 0
  | FV.nan => FV.nan

/-- Lines 85-88: `mono_audio = np.mean(audio, axis=0)` for stereo, the
buffer itself for mono. -/
noncomputable def monoMix : Buffer ℝ → List ℝ
  | Buffer.mono xs => xs
  | Buffer.stereo l r => (l.zip r).map (fun p => (p.1 + p.2) / 2)

/-- Line 91: `current_loudness = 20 * np.log10(np.sqrt(np.mean(mono_audio**2))) - 23`. -/
noncomputable def currentLoudness (b : Buffer ℝ) : FV :=
  fvSub (fvScale 20 (flog10 (Real.sqrt (meanSq (monoMix b))))) (FV.fin 23)

/-- Line 92: `gain = 10**((target_loudness - current_loudness) / 20)`. -/
noncomputable def loudnessGain (L : ℝ) (b : Buffer ℝ) : FV :=
  fvPow10 (fvDivC 20 (fvSub (FV.fin L) (currentLoudness b)))

/-- Lines 80-93, the `loudness` strategy: `normalized_audio = audio * gain`
with the single gain of line 92 applied to every sample of every
channel. -/
noncomputable def loudnessNormalize (L : ℝ) (b : Buffer ℝ) : Buffer FV :=
  b.map (fun x => fvMul (FV.fin x) (loudnessGain L b))

/-! ## Basic lemmas about the event stream -/

theorem loopEvents_nil (total : Nat) (c : Option Nat) (i : Nat) :
    loopEvents total c i [] = [] := rfl

theorem loopEvents_none_cons (total i : Nat) (f : FileSpec) (rest : List FileSpec) :
    loopEvents total none i (f :: rest)
      = fileEvents total i f ++ loopEvents total none (i + 1) rest := by
  simp [loopEvents, runningAt]

/-- With the flag reading `False` from iteration `c` on, the loop body
runs for exactly the first `c - i` of the remaining files. -/
theorem loopEvents_some_eq_take (total c : Nat) :
    ∀ (fs : List FileSpec) (i : Nat),
      loopEvents total (some c) i fs = loopEvents total none i (fs.take (c - i)) := by
  intro fs
  induction fs with
  | nil => intro i; simp [loopEvents]
  | cons f rest ih =>
    intro i
    by_cases h : i < c
    · have hr : runningAt (some c) i = true := by simp [runningAt, h]
      have hc : c - i = (c - (i + 1)) + 1 := by omega
      rw [hc, List.take_succ_cons, loopEvents_none_cons]
      simp only [loopEvents, hr, if_true]
      rw [ih (i + 1)]
    · have hr : runningAt (some c) i = false := by simp [runningAt, h]
      have hc : c - i = 0 := by omega
      rw [hc, List.take_zero, loopEvents_nil]
      simp [loopEvents, hr]

/-- An uncancelled loop splits at any index. -/
theorem loopEvents_none_split (total : Nat) :
    ∀ (k : Nat) (fs : List FileSpec) (i : Nat),
      loopEvents total none i fs
        = loopEvents total none i (fs.take k)
            ++ loopEvents total none (i + k) (fs.drop k) := by
  intro k
  induction k with
  | zero => intro fs i; simp [loopEvents]
  | succ k ih =>
    intro fs i
    cases fs with
    | nil => simp [loopEvents]
    | cons f rest =>
      rw [List.take_succ_cons, List.drop_succ_cons, loopEvents_none_cons,
        loopEvents_none_cons, ih rest (i + 1), List.append_assoc]
      have : i + 1 + k = i + (k + 1) := by omega
      rw [this]

theorem runEvents_getLast (files : List FileSpec) (c : Option Nat) :
    (runEvents files c).getLast? = some Event.finished := by
  unfold runEvents
  exact List.getLast?_concat _

theorem fileResultLabels_append (a b : List Event) :
    fileResultLabels (a ++ b) = fileResultLabels a ++ fileResultLabels b := by
  simp [fileResultLabels]

theorem fileResultLabels_fileEvents (total i : Nat) (f : FileSpec) :
    fileResultLabels (fileEvents total i f) = [labelOf f] := by
  cases h : f.result <;> simp [fileEvents, fileResultLabels, labelOf, h]

/-- Every file the loop reaches yields exactly one `file_processed`
emission, carrying `labelOf`. -/
theorem fileResultLabels_loopEvents (total : Nat) :
    ∀ (fs : List FileSpec) (i : Nat),
      fileResultLabels (loopEvents total none i fs) = fs.map labelOf := by
  intro fs
  induction fs with
  | nil => intro i; simp [loopEvents, fileResultLabels]
  | cons f rest ih =>
    intro i
    rw [loopEvents_none_cons, fileResultLabels_append, fileResultLabels_fileEvents,
      ih (i + 1), List.map_cons, List.singleton_append]

theorem progressEvents_append (a b : List Event) :
    progressEvents (a ++ b) = progressEvents a ++ progressEvents b := by
  simp [progressEvents]

theorem progressEvents_fileEvents (total i : Nat) (f : FileSpec) :
    progressEvents (fileEvents total i f)
      = if f.result.isNone then [Event.progress (progressOf total i)] else [] := by
  cases h : f.result <;> simp [fileEvents, progressEvents, h]

/-- The `progress_updated` emissions of the uncancelled loop come exactly
from the files whose pipeline succeeds. -/
theorem progressEvents_loopEvents (total : Nat) :
    ∀ (fs : List FileSpec) (i : Nat),
      progressEvents (loopEvents total none i fs)
        = ((fs.enumFrom i).filter (fun p => p.2.result.isNone)).map
            (fun p => Event.progress (progressOf total p.1)) := by
  intro fs
  induction fs with
  | nil => intro i; simp [loopEvents, progressEvents]
  | cons f rest ih =>
    intro i
    rw [loopEvents_none_cons, progressEvents_append, progressEvents_fileEvents,
      ih (i + 1)]
    cases h : f.result <;> simp [List.enumFrom, List.filter, h]

/-! ## Claim theorems about the event stream -/

/-- C10: for an empty input list the worker's `run` emits no progress
events and no per-file status events, and emits the terminal `finished`
event exactly once — the whole emission list is `[finished]`, whatever
the cancellation flag does. -/
theorem c10_empty_batch_only_finished (c : Option Nat) :
    runEvents [] c = [Event.finished] := rfl

/-- C3 counterexample: the claim says the terminal completion event
carries a payload distinguishing a completed run from a cancelled one
(`Finished{cancelled: bool}`).  It does not: `finished = pyqtSignal()`
(line 22) carries no argument, and the terminal event of a run cancelled
before its only file equals, as a value, the terminal event of the same
run left uncancelled. -/
theorem c3_counterexample :
    (runEvents [FileSpec.mk "a" none] (some 0)).getLast?
        = (runEvents [FileSpec.mk "a" none] none).getLast?
      ∧ (runEvents [FileSpec.mk "a" none] (some 0)).getLast? = some Event.finished
      ∧ runEvents [FileSpec.mk "a" none] (some 0) ≠ runEvents [FileSpec.mk "a" none] none := by
  decide

/-- C3 amended: after the loop ends — exhausted or cancelled — the worker
emits a terminal `finished` event, but the signal is parameterless
(`pyqtSignal()`, line 22): the payload is the same (empty) in both cases
and does not distinguish completion from cancellation. -/
theorem c3_amended_terminal_event (files : List FileSpec) (c : Option Nat) :
    (runEvents files c).getLast? = some Event.finished ∧
    (runEvents files c).getLast? = (runEvents files none).getLast? := by
  rw [runEvents_getLast, runEvents_getLast]
  exact ⟨rfl, rfl⟩

/-- C7: once the stop flag reads `False` from iteration `i` on (cancelled
between files), the run's emissions are exactly those of the first `i`
files — no per-file or progress event for file `i+1` onward — followed by
the terminal `finished` event, which is still emitted. -/
theorem c7_cancel_stops_new_files (files : List FileSpec) (i : Nat) :
    runEvents files (some i)
      = loopEvents files.length none 0 (files.take i) ++ [Event.finished] := by
  unfold runEvents
  rw [loopEvents_some_eq_take files.length i files 0, Nat.sub_zero]

/-- C9: a progress event is emitted only for files that complete
successfully — the progress emissions of a full (uncancelled) run are
exactly those of its successful files — and a run whose last file fails
ends with its last reported percentage below 100 (here a 2-file run whose
second file fails stops at 50) even though it ran to completion. -/
theorem c9_progress_only_on_success :
    (∀ files : List FileSpec,
        progressEvents (runEvents files none)
          = ((files.enum).filter (fun p => p.2.result.isNone)).map
              (fun p => Event.progress (progressOf files.length p.1)))
    ∧ progressEvents
          (runEvents [FileSpec.mk "a" none, FileSpec.mk "b" (some "boom")] none)
        = [Event.progress 50]
    ∧ (50 : Nat) < 100 := by
  refine ⟨?_, by decide, by decide⟩
  intro files
  unfold runEvents
  rw [progressEvents_append, progressEvents_loopEvents, List.enum]
  simp [progressEvents]

/-- C4: in an uncancelled batch of `N` files in which exactly the file at
index `k` fails (at any pipeline step) and every other file succeeds, the
run emits exactly `N` per-file status events; their labels are the
success-name list with position `k` replaced by the error-tagged string
`ERROR: <name> - <message>` for file `k` (so exactly that one event is
error-tagged and the other `N - 1` files are still processed), and the
terminal `finished` event is still emitted. -/
theorem c4_single_failure_fault_isolation
    (files : List FileSpec) (k : Nat) (nm msg : String)
    (hk : files.get? k = some (FileSpec.mk nm (some msg)))
    (hok : ∀ j (hj : j < files.length), j ≠ k → (files.get ⟨j, hj⟩).result = none) :
    fileResultLabels (runEvents files none)
        = (files.map FileSpec.name).set k ("ERROR: " ++ nm ++ " - " ++ msg)
      ∧ (fileResultLabels (runEvents files none)).length = files.length
      ∧ (runEvents files none).getLast? = some Event.finished := by
  obtain ⟨hklt, hget⟩ := List.get?_eq_some.mp hk
  have hlabels : fileResultLabels (runEvents files none) = files.map labelOf := by
    unfold runEvents
    rw [fileResultLabels_append, fileResultLabels_loopEvents]
    simp [fileResultLabels]
  have hmap : files.map labelOf
      = (files.map FileSpec.name).set k ("ERROR: " ++ nm ++ " - " ++ msg) := by
    apply List.ext_getElem
    · simp
    · intro j hj hj2
      have hjlt : j < files.length := by simpa using hj
      rw [List.getElem_map]
      rw [List.getElem_set]
      by_cases hjk : k = j
      · subst hjk
        have : files[k] = FileSpec.mk nm (some msg) := by
          simpa [List.get_eq_getElem] using hget
        rw [if_pos rfl, this]
        rfl
      · have hres : (files.get ⟨j, hjlt⟩).result = none :=
          hok j hjlt (fun h => hjk h.symm)
        rw [if_neg hjk, List.getElem_map]
        show labelOf files[j] = (files[j]).name
        have : files[j].result = none := by simpa [List.get_eq_getElem] using hres
        simp [labelOf, this]
  refine ⟨hlabels.trans hmap, ?_, runEvents_getLast files none⟩
  rw [hlabels]
  simp

/-- C4 witness: a concrete 2-file batch whose second file fails. -/
theorem c4_single_failure_fault_isolation_witness :
    ([FileSpec.mk "a" none, FileSpec.mk "b" (some "bad")].get? 1
        = some (FileSpec.mk "b" (some "bad")))
      ∧ (fileResultLabels
            (runEvents [FileSpec.mk "a" none, FileSpec.mk "b" (some "bad")] none)
            = ([FileSpec.mk "a" none, FileSpec.mk "b" (some "bad")].map
                FileSpec.name).set 1 ("ERROR: " ++ "b" ++ " - " ++ "bad")
          ∧ (fileResultLabels
              (runEvents [FileSpec.mk "a" none, FileSpec.mk "b" (some "bad")] none)).length
            = [FileSpec.mk "a" none, FileSpec.mk "b" (some "bad")].length
          ∧ (runEvents [FileSpec.mk "a" none, FileSpec.mk "b" (some "bad")] none).getLast?
            = some Event.finished) :=
  ⟨by decide,
    c4_single_failure_fault_isolation
      [FileSpec.mk "a" none, FileSpec.mk "b" (some "bad")] 1 "b" "bad"
      (by decide) (by decide)⟩

/-- Python's `int((i + 1) / total_files * 100)` on nonnegative input is
the floor of the exact percentage. -/
theorem progressOf_eq_floor (total i : Nat) :
    progressOf total i = ⌊(((i : ℚ) + 1) / (total : ℚ)) * 100⌋₊ := by
  have h : (((i : ℚ) + 1) / (total : ℚ)) * 100 = (((i + 1) * 100 : ℕ) : ℚ) / (total : ℚ) := by
    push_cast
    ring
  rw [h, Nat.floor_div_nat, Nat.floor_natCast]
  rfl

/-- C8 counterexample: the claim says the progress value for the
successful file at zero-based index `i` of `N` equals the percentage
`(i+1)/N * 100` rounded to an integer.  In a 3-file all-success batch the
second file's percentage is `200/3 ≈ 66.67`, which rounds to `67`, but
line 118 truncates (`int(...)`) and the run emits `66`; no emitted event
carries `67`. -/
theorem c8_counterexample :
    runEvents
        [FileSpec.mk "a" none, FileSpec.mk "b" none, FileSpec.mk "c" none] none
      = [Event.progress 33, Event.fileResult "a",
         Event.progress 66, Event.fileResult "b",
         Event.progress 100, Event.fileResult "c", Event.finished]
    ∧ round ((((1 : ℚ) + 1) / 3) * 100) = 67
    ∧ Event.progress 67 ∉ runEvents
        [FileSpec.mk "a" none, FileSpec.mk "b" none, FileSpec.mk "c" none] none := by
  refine ⟨by decide, ?_, by decide⟩
  norm_num [round_eq]

/-- C8 amended: for the successful file at zero-based index `k` of an
uncancelled batch, the progress event emitted just before its
`file_processed` event carries the percentage `(k+1)/N * 100` truncated
(floored) to an integer — not rounded to the nearest integer. -/
theorem c8_progress_is_floored_percentage
    (files : List FileSpec) (k : Nat) (f : FileSpec)
    (hf : files.get? k = some f) (hsucc : f.result = none) :
    runEvents files none
      = loopEvents files.length none 0 (files.take k)
          ++ [Event.progress ⌊(((k : ℚ) + 1) / (files.length : ℚ)) * 100⌋₊,
              Event.fileResult f.name]
          ++ (loopEvents files.length none (k + 1) (files.drop (k + 1))
          ++ [Event.finished]) := by
  obtain ⟨hklt, hget⟩ := List.get?_eq_some.mp hf
  have hfk : files[k] = f := by simpa [List.get_eq_getElem] using hget
  unfold runEvents
  rw [loopEvents_none_split files.length k files 0, List.drop_eq_getElem_cons hklt,
    hfk, Nat.zero_add, loopEvents_none_cons]
  have hfe : fileEvents files.length k f
      = [Event.progress ⌊(((k : ℚ) + 1) / (files.length : ℚ)) * 100⌋₊,
         Event.fileResult f.name] := by
    rw [fileEvents, hsucc, progressOf_eq_floor]
  rw [hfe]
  simp [List.append_assoc]

/-- C8 witness: a concrete single-file batch; its progress event carries
`⌊(0+1)/1 * 100⌋ = 100`. -/
theorem c8_progress_is_floored_percentage_witness :
    ([FileSpec.mk "a" none].get? 0 = some (FileSpec.mk "a" none))
      ∧ (FileSpec.mk "a" none).result = none
      ∧ runEvents [FileSpec.mk "a" none] none
          = loopEvents [FileSpec.mk "a" none].length none 0
                ([FileSpec.mk "a" none].take 0)
              ++ [Event.progress
                    ⌊((((0 : Nat) : ℚ) + 1) / (([FileSpec.mk "a" none].length : Nat) : ℚ)) * 100⌋₊,
                  Event.fileResult (FileSpec.mk "a" none).name]
              ++ (loopEvents [FileSpec.mk "a" none].length none (0 + 1)
                    ([FileSpec.mk "a" none].drop (0 + 1))
              ++ [Event.finished]) :=
  ⟨by decide, by decide,
    c8_progress_is_floored_percentage [FileSpec.mk "a" none] 0 (FileSpec.mk "a" none)
      (by decide) (by decide)⟩

/-! ## Claim theorems about the mp3 temp file -/

theorem fsRemove_fsCreate_of_not_mem {n : String} {fs : List String} (h : n ∉ fs) :
    fsRemove n (fsCreate n fs) = fs := by
  rw [fsCreate, if_neg h, fsRemove, List.filter_append]
  have h1 : fs.filter (fun m => m ≠ n) = fs :=
    List.filter_eq_self.mpr (fun m hm => by
      simp only [ne_eq, decide_eq_true_eq]
      exact fun he => h (he ▸ hm))
  have h2 : [n].filter (fun m => m ≠ n) = [] := by simp
  rw [h1, h2, List.append_nil]

/-- Folding the mp3 step over files whose temp names are fresh and
pairwise distinct appends exactly the temp files of the transcode
failures. -/
theorem mp3Step_foldl (files : List Mp3File) :
    ∀ fs : List String,
      (∀ f ∈ files, tempName f.base ∉ fs) →
      (files.map (fun f => tempName f.base)).Nodup →
      files.foldl mp3Step fs
        = fs ++ (files.filter failedTranscode).map (fun f => tempName f.base) := by
  induction files with
  | nil => intro fs _ _; simp
  | cons f rest ih =>
    intro fs hfresh hnd
    have hf : tempName f.base ∉ fs := hfresh f (List.mem_cons_self f rest)
    have hndrest : (rest.map (fun g => tempName g.base)).Nodup :=
      (List.nodup_cons.mp hnd).2
    have hhead : ∀ g ∈ rest, tempName g.base ≠ tempName f.base := by
      intro g hg he
      have hmem : tempName f.base ∈ rest.map (fun g => tempName g.base) := by
        rw [← he]
        exact List.mem_map_of_mem _ hg
      exact (List.nodup_cons.mp hnd).1 hmem
    rw [List.foldl_cons]
    cases ho : f.outcome with
    | preTempFail m =>
      have hstep : mp3Step fs f = fs := by rw [mp3Step, ho]
      have hft : failedTranscode f = false := by rw [failedTranscode, ho]
      rw [hstep, ih fs (fun g hg => hfresh g (List.mem_cons_of_mem f hg)) hndrest]
      simp [List.filter_cons, hft]
    | ok =>
      have hstep : mp3Step fs f = fs := by
        rw [mp3Step, ho]
        exact fsRemove_fsCreate_of_not_mem hf
      have hft : failedTranscode f = false := by rw [failedTranscode, ho]
      rw [hstep, ih fs (fun g hg => hfresh g (List.mem_cons_of_mem f hg)) hndrest]
      simp [List.filter_cons, hft]
    | transcodeFail m =>
      have hstep : mp3Step fs f = fs ++ [tempName f.base] := by
        rw [mp3Step, ho, fsCreate, if_neg hf]
      have hft : failedTranscode f = true := by rw [failedTranscode, ho]
      have hfresh2 : ∀ g ∈ rest, tempName g.base ∉ fs ++ [tempName f.base] := by
        intro g hg hmem
        rcases List.mem_append.mp hmem with hin | hin
        · exact hfresh g (List.mem_cons_of_mem f hg) hin
        · exact hhead g hg (List.mem_singleton.mp hin)
      rw [hstep, ih (fs ++ [tempName f.base]) hfresh2 hndrest]
      simp [List.filter_cons, hft]

/-- C2 counterexample: the claim says the intermediate
`<base>_temp.wav` is deleted on every exit path, including when the
transcode step fails, so a run leaves zero residual temp files.  It is
not: when `AudioSegment.from_wav`/`export` (lines 111-112) raises, the
`except` of line 122 catches it and `os.remove(temp_wav)` (line 115) is
never reached, so a one-file run whose transcode fails leaves
`a_temp.wav` behind. -/
theorem c2_counterexample :
    runTemps [Mp3File.mk "a" (Mp3Outcome.transcodeFail "export failed")]
        = ["a_temp.wav"]
      ∧ runTemps [Mp3File.mk "a" (Mp3Outcome.transcodeFail "export failed")] ≠ [] := by
  decide

/-- C2 amended: the temp file of each mp3-encoded file is removed only on
the success path (line 115, after the transcode completes); an mp3 run
over files with distinct temp names leaves behind exactly one
`<base>_temp.wav` per file whose transcode step failed — zero residual
temp files only when no transcode failed. -/
theorem c2_temp_left_iff_transcode_failed (files : List Mp3File)
    (hnd : (files.map (fun f => tempName f.base)).Nodup) :
    runTemps files = (files.filter failedTranscode).map (fun f => tempName f.base) := by
  rw [runTemps, mp3Step_foldl files [] (by simp) hnd, List.nil_append]

/-- C2 witness: a two-file run, first file failing at transcode, second
succeeding. -/
theorem c2_temp_left_iff_transcode_failed_witness :
    ([Mp3File.mk "a" (Mp3Outcome.transcodeFail "x"), Mp3File.mk "b" Mp3Outcome.ok].map
        (fun f => tempName f.base)).Nodup
      ∧ runTemps [Mp3File.mk "a" (Mp3Outcome.transcodeFail "x"), Mp3File.mk "b" Mp3Outcome.ok]
          = ([Mp3File.mk "a" (Mp3Outcome.transcodeFail "x"), Mp3File.mk "b" Mp3Outcome.ok].filter
              failedTranscode).map (fun f => tempName f.base) :=
  ⟨by decide,
    c2_temp_left_iff_transcode_failed
      [Mp3File.mk "a" (Mp3Outcome.transcodeFail "x"), Mp3File.mk "b" Mp3Outcome.ok]
      (by decide)⟩

/-! ## Lemmas about the normalization strategies -/

theorem targetAmplitude_pos (L : ℝ) : 0 < targetAmplitude L :=
  Real.rpow_pos_of_pos (by norm_num) _

theorem Buffer.samples_map {α β : Type} (f : α → β) (b : Buffer α) :
    (b.map f).samples = b.samples.map f := by
  cases b <;> simp [Buffer.map, Buffer.samples]

theorem foldr_max_abs_mul (g : ℝ) (hg : 0 ≤ g) (xs : List ℝ) :
    ((xs.map (fun x => x * g)).map (fun x => |x|)).foldr max 0
      = ((xs.map (fun x => |x|)).foldr max 0) * g := by
  induction xs with
  | nil => simp
  | cons x xs ih =>
    simp only [List.map_cons, List.foldr_cons, ih]
    rw [abs_mul, abs_of_nonneg hg, max_mul_of_nonneg _ _ hg]

theorem maxAmplitude_map_mul (b : Buffer ℝ) (g : ℝ) (hg : 0 ≤ g) :
    maxAmplitude (b.map (fun x => x * g)) = maxAmplitude b * g := by
  rw [maxAmplitude, Buffer.samples_map, foldr_max_abs_mul g hg]
  rfl

theorem meanSq_nonneg (xs : List ℝ) : 0 ≤ meanSq xs := by
  apply div_nonneg _ (Nat.cast_nonneg _)
  apply List.sum_nonneg
  intro x hx
  obtain ⟨y, _, rfl⟩ := List.mem_map.mp hx
  exact sq_nonneg y

theorem meanSq_map_mul (xs : List ℝ) (g : ℝ) :
    meanSq (xs.map (fun x => x * g)) = meanSq xs * g ^ 2 := by
  rw [meanSq, meanSq, List.length_map]
  have h : ((xs.map (fun x => x * g)).map (fun x => x ^ 2)).sum
      = (xs.map (fun x => x ^ 2)).sum * g ^ 2 := by
    induction xs with
    | nil => simp
    | cons x xs ih =>
      simp only [List.map_cons, List.sum_cons, ih]
      ring
  rw [h, mul_div_right_comm]

theorem rmsVal_map_mul (xs : List ℝ) (g : ℝ) (hg : 0 ≤ g) :
    rmsVal (xs.map (fun x => x * g)) = rmsVal xs * g := by
  rw [rmsVal, rmsVal, meanSq_map_mul, Real.sqrt_mul (meanSq_nonneg xs),
    Real.sqrt_sq hg]

/-! ## Claim theorems about the normalization strategies -/

/-- C5: for a non-silent buffer (`max_amplitude > 0`), the `peak`
strategy multiplies every sample by the single gain
`target_amplitude / max_amplitude = 10^(L/20) / peak` (line 61), and the
resulting buffer's maximum absolute sample equals
`targetAmplitude L = 10^(L/20)` exactly (in the exact-real model;
floating-point tolerance is rounding only). -/
theorem c5_peak_normalization (L : ℝ) (b : Buffer ℝ) (h : 0 < maxAmplitude b) :
    peakNormalize L b = b.map (fun x => x * (targetAmplitude L / maxAmplitude b))
    ∧ maxAmplitude (peakNormalize L b) = targetAmplitude L := by
  have hmap : peakNormalize L b
      = b.map (fun x => x * (targetAmplitude L / maxAmplitude b)) := by
    rw [peakNormalize, if_pos h]
  refine ⟨hmap, ?_⟩
  rw [hmap, maxAmplitude_map_mul b _ (le_of_lt (div_pos (targetAmplitude_pos L) h)),
    mul_comm, div_mul_cancel₀ _ (ne_of_gt h)]

/-- C5 witness: a concrete mono buffer of peak `1/2` at level `-5` dB. -/
theorem c5_peak_normalization_witness :
    0 < maxAmplitude (Buffer.mono [(1 : ℝ)/2])
    ∧ (peakNormalize (-5) (Buffer.mono [(1 : ℝ)/2])
          = (Buffer.mono [(1 : ℝ)/2]).map
              (fun x => x * (targetAmplitude (-5) / maxAmplitude (Buffer.mono [(1 : ℝ)/2])))
      ∧ maxAmplitude (peakNormalize (-5) (Buffer.mono [(1 : ℝ)/2])) = targetAmplitude (-5)) := by
  have h : 0 < maxAmplitude (Buffer.mono [(1 : ℝ)/2]) := by
    simp only [maxAmplitude, Buffer.samples, List.map_cons, List.map_nil,
      List.foldr_cons, List.foldr_nil]
    have h2 : (0 : ℝ) < |(1 : ℝ)/2| := abs_pos.mpr (by norm_num)
    exact lt_max_of_lt_left h2
  exact ⟨h, c5_peak_normalization (-5) (Buffer.mono [(1 : ℝ)/2]) h⟩

/-- C6: the `rms` strategy on a stereo buffer computes RMS independently
per channel and applies `gain_left = 10^(L/20) / rms_left` to the left
channel only and `gain_right = 10^(L/20) / rms_right` to the right
channel only (lines 69-73); when both channel RMS values are positive,
each resulting channel's RMS equals `targetAmplitude L = 10^(L/20)`,
even when the two applied gains differ. -/
theorem c6_rms_per_channel (L : ℝ) (l r : List ℝ)
    (hl : 0 < rmsVal l) (hr : 0 < rmsVal r) :
    rmsNormalize L (Buffer.stereo l r)
        = Buffer.stereo (l.map (fun x => x * (targetAmplitude L / rmsVal l)))
            (r.map (fun x => x * (targetAmplitude L / rmsVal r)))
      ∧ rmsVal (l.map (fun x => x * (targetAmplitude L / rmsVal l))) = targetAmplitude L
      ∧ rmsVal (r.map (fun x => x * (targetAmplitude L / rmsVal r))) = targetAmplitude L := by
  have hgl : rmsGain L l = targetAmplitude L / rmsVal l := by rw [rmsGain, if_pos hl]
  have hgr : rmsGain L r = targetAmplitude L / rmsVal r := by rw [rmsGain, if_pos hr]
  refine ⟨by rw [rmsNormalize, hgl, hgr], ?_, ?_⟩
  · rw [rmsVal_map_mul l _ (le_of_lt (div_pos (targetAmplitude_pos L) hl)),
      mul_comm, div_mul_cancel₀ _ (ne_of_gt hl)]
  · rw [rmsVal_map_mul r _ (le_of_lt (div_pos (targetAmplitude_pos L) hr)),
      mul_comm, div_mul_cancel₀ _ (ne_of_gt hr)]

/-- C6 witness: a concrete stereo buffer with unequal per-channel RMS
(`3/5` left, `1` right), at level `0` dB. -/
theorem c6_rms_per_channel_witness :
    0 < rmsVal [(3 : ℝ)/5, 3/5]
    ∧ 0 < rmsVal [(1 : ℝ), 1]
    ∧ (rmsNormalize 0 (Buffer.stereo [(3 : ℝ)/5, 3/5] [(1 : ℝ), 1])
          = Buffer.stereo
              ([(3 : ℝ)/5, 3/5].map (fun x => x * (targetAmplitude 0 / rmsVal [(3 : ℝ)/5, 3/5])))
              ([(1 : ℝ), 1].map (fun x => x * (targetAmplitude 0 / rmsVal [(1 : ℝ), 1])))
        ∧ rmsVal ([(3 : ℝ)/5, 3/5].map
              (fun x => x * (targetAmplitude 0 / rmsVal [(3 : ℝ)/5, 3/5])))
            = targetAmplitude 0
        ∧ rmsVal ([(1 : ℝ), 1].map
              (fun x => x * (targetAmplitude 0 / rmsVal [(1 : ℝ), 1])))
            = targetAmplitude 0) := by
  have hl : 0 < rmsVal [(3 : ℝ)/5, 3/5] := by
    rw [rmsVal]
    apply Real.sqrt_pos.mpr
    rw [meanSq]
    norm_num
  have hr : 0 < rmsVal [(1 : ℝ), 1] := by
    rw [rmsVal]
    apply Real.sqrt_pos.mpr
    rw [meanSq]
    norm_num
  exact ⟨hl, hr, c6_rms_per_channel 0 [(3 : ℝ)/5, 3/5] [(1 : ℝ), 1] hl hr⟩

/-! ## Silence (all-zero buffers) -/

theorem foldr_max_replicate_zero (n : ℕ) :
    (List.replicate n (0 : ℝ)).foldr max 0 = 0 := by
  induction n with
  | zero => rfl
  | succ n ih => rw [List.replicate_succ, List.foldr_cons, ih, max_self]

theorem foldr_max_abs_zero (n : ℕ) :
    ((List.replicate n (0 : ℝ)).map (fun x => |x|)).foldr max 0 = 0 := by
  rw [List.map_replicate, abs_zero]
  exact foldr_max_replicate_zero n

theorem meanSq_replicate_zero (n : ℕ) : meanSq (List.replicate n (0 : ℝ)) = 0 := by
  rw [meanSq, List.map_replicate]
  norm_num

theorem rmsGain_replicate_zero (L : ℝ) (k : ℕ) :
    rmsGain L (List.replicate k (0 : ℝ)) = 1 := by
  rw [rmsGain, rmsVal, meanSq_replicate_zero, Real.sqrt_zero, if_neg (lt_irrefl 0)]

theorem zipHalf_replicate_zero (n : ℕ) :
    ((List.replicate n (0 : ℝ)).zip (List.replicate n (0 : ℝ))).map
        (fun p => (p.1 + p.2) / 2)
      = List.replicate n 0 := by
  induction n with
  | zero => rfl
  | succ n ih => simp [List.replicate_succ, ih]

/-- The gain of the `loudness` strategy on a buffer whose measurement mix
is silent: `np.log10(0.0) = -inf`, so `current_loudness = -inf` and
`gain = 10 ** inf = inf`. -/
theorem loudnessGain_silent (L : ℝ) (b : Buffer ℝ) (h : meanSq (monoMix b) = 0) :
    loudnessGain L b = FV.posInf := by
  rw [loudnessGain, currentLoudness, h, Real.sqrt_zero, flog10, if_pos rfl]
  rfl

theorem fvMul_zero_posInf : fvMul (FV.fin 0) FV.posInf = FV.nan := by
  simp [fvMul]

/-- C1 (evaluating the code at the spec's silence requirement): for every
all-zero buffer and every target level, the guarded `peak` and `rms`
strategies return the buffer unchanged (lines 61 and 71-77), but the
`loudness` strategy — which has no silence guard — turns every sample
into IEEE `NaN` (`0.0 * (10 ** ((L - (-inf)) / 20)) = 0.0 * inf = nan`),
contradicting the claim that all three methods leave silence
unchanged with no NaN. -/
theorem c1_silence_peak_rms_ok_loudness_nan (L : ℝ) (n : ℕ) :
    peakNormalize L (Buffer.mono (List.replicate (n + 1) 0))
        = Buffer.mono (List.replicate (n + 1) 0)
      ∧ peakNormalize L
            (Buffer.stereo (List.replicate (n + 1) 0) (List.replicate (n + 1) 0))
          = Buffer.stereo (List.replicate (n + 1) 0) (List.replicate (n + 1) 0)
      ∧ rmsNormalize L (Buffer.mono (List.replicate (n + 1) 0))
          = Buffer.mono (List.replicate (n + 1) 0)
      ∧ rmsNormalize L
            (Buffer.stereo (List.replicate (n + 1) 0) (List.replicate (n + 1) 0))
          = Buffer.stereo (List.replicate (n + 1) 0) (List.replicate (n + 1) 0)
      ∧ loudnessNormalize L (Buffer.mono (List.replicate (n + 1) 0))
          = Buffer.mono (List.replicate (n + 1) FV.nan)
      ∧ loudnessNormalize L
            (Buffer.stereo (List.replicate (n + 1) 0) (List.replicate (n + 1) 0))
          = Buffer.stereo (List.replicate (n + 1) FV.nan)
              (List.replicate (n + 1) FV.nan) := by
  have hmaxm : maxAmplitude (Buffer.mono (List.replicate (n + 1) (0 : ℝ))) = 0 := by
    rw [maxAmplitude]
    exact foldr_max_abs_zero _
  have hmaxs : maxAmplitude
      (Buffer.stereo (List.replicate (n + 1) (0 : ℝ)) (List.replicate (n + 1) 0)) = 0 := by
    have hsamp : (Buffer.stereo (List.replicate (n + 1) (0 : ℝ))
          (List.replicate (n + 1) (0 : ℝ))).samples
        = List.replicate (n + 1) (0 : ℝ) ++ List.replicate (n + 1) (0 : ℝ) := rfl
    rw [maxAmplitude, hsamp, ← List.replicate_add]
    exact foldr_max_abs_zero _
  have hmono : monoMix (Buffer.mono (List.replicate (n + 1) (0 : ℝ)))
      = List.replicate (n + 1) 0 := rfl
  have hster : monoMix
      (Buffer.stereo (List.replicate (n + 1) (0 : ℝ)) (List.replicate (n + 1) 0))
      = List.replicate (n + 1) 0 := by
    rw [monoMix]
    exact zipHalf_replicate_zero _
  have hgainm : loudnessGain L (Buffer.mono (List.replicate (n + 1) (0 : ℝ)))
      = FV.posInf :=
    loudnessGain_silent L _ (by rw [hmono, meanSq_replicate_zero])
  have hgains : loudnessGain L
      (Buffer.stereo (List.replicate (n + 1) (0 : ℝ)) (List.replicate (n + 1) 0))
      = FV.posInf :=
    loudnessGain_silent L _ (by rw [hster, meanSq_replicate_zero])
  refine ⟨?_, ?_, ?_, ?_, ?_, ?_⟩
  · rw [peakNormalize, hmaxm, if_neg (lt_irrefl 0)]
  · rw [peakNormalize, hmaxs, if_neg (lt_irrefl 0)]
  · rw [rmsNormalize, rmsGain_replicate_zero]
    simp
  · rw [rmsNormalize, rmsGain_replicate_zero]
    simp
  · rw [loudnessNormalize, hgainm, Buffer.map, List.map_replicate,
      fvMul_zero_posInf]
  · rw [loudnessNormalize, hgains, Buffer.map, List.map_replicate,
      fvMul_zero_posInf]

end BatchAudioNormalizer
